import Mathlib

/-!
pchain: callback registry, validator keys, genesis reward constants, listen address.

A shallow embedding of

* `vendor/github.com/ethereum/go-ethereum/core/tx_callback.go` (the three callback tables),
* `vendor/github.com/tendermint/go-crypto/priv_key.go` (the `PrivKey` variants),
* `cmd/ethermint/init.go` (the default genesis document),
* `p2p/server.go` (`ProtocolAndAddress`),

followed by the properties established about them.
-/

set_option autoImplicit false

/-! ## Part 1. Definitions -/

/-! ### Go maps -/

/-- A Go `map[K]H`: a finite table of bindings, at most one per key. -/
abbrev GoMap (K H : Type) := List (K × H)

/-- The Go expression `m[k]` in its two-valued form `v, ok := m[k]`:
`some v` when `ok`, `none` when the key has no binding. -/
def mapGet {K H : Type} [DecidableEq K] (k : K) : GoMap K H → Option H
  | [] => none
  | (k', v) :: rest => if k = k' then some v else mapGet k rest

/-- The Go statement `m[k] = v`: any earlier binding of `k` is replaced. -/
def mapAssign {K H : Type} [DecidableEq K] (k : K) (v : H) (m : GoMap K H) : GoMap K H :=
  (k, v) :: m.filter (fun e => decide (e.1 ≠ k))

/-- Go's `for k, v := range m`: the language fixes no iteration order, so every
arrangement of the bindings of `m` is a permitted enumeration. -/
def rangeOrder {K H : Type} (m : GoMap K H) (visit : List (K × H)) : Prop :=
  visit.Perm m

/-! ### tx_callback.go -/

/-- The three package-level tables of `tx_callback.go`.  `FT` is `pabi.FunctionType`;
`V`, `A`, `B` are the non-nil values of `EtdValidateCb`, `EtdApplyCb` and
`EtdInsertBlockCb`, so that a callback is an `Option` whose `none` is Go's `nil`. -/
structure Registry (FT V A B : Type) where
  validateCbMap : GoMap FT (Option V)
  applyCbMap : GoMap FT (Option A)
  insertBlockCbMap : GoMap String (Option B)

/-- The tables as `make` leaves them at package initialisation. -/
def Registry.empty {FT V A B : Type} : Registry FT V A B :=
  { validateCbMap := [], applyCbMap := [], insertBlockCbMap := [] }

section RegistryOps

variable {FT V A B : Type} [DecidableEq FT]

/-- `RegisterValidateCb`: the returned error (`none` is Go's `nil` error) and the tables after. -/
def RegisterValidateCb (function : FT) (validateCb : Option V) (s : Registry FT V A B) :
    Option String × Registry FT V A B :=
  match mapGet function s.validateCbMap with
  | some _ => (some "the name has registered in validateCbMap", s)
  | none => (none, { s with validateCbMap := mapAssign function validateCb s.validateCbMap })

/-- `GetValidateCb`: the returned callback and the tables after. -/
def GetValidateCb (function : FT) (s : Registry FT V A B) : Option V × Registry FT V A B :=
  match mapGet function s.validateCbMap with
  | some cb => (cb, s)
  | none => (none, s)

/-- `RegisterApplyCb`: the returned error and the tables after. -/
def RegisterApplyCb (function : FT) (applyCb : Option A) (s : Registry FT V A B) :
    Option String × Registry FT V A B :=
  match mapGet function s.applyCbMap with
  | some _ => (some "the name has registered in applyCbMap", s)
  | none => (none, { s with applyCbMap := mapAssign function applyCb s.applyCbMap })

/-- `GetApplyCb`: the returned callback and the tables after. -/
def GetApplyCb (function : FT) (s : Registry FT V A B) : Option A × Registry FT V A B :=
  match mapGet function s.applyCbMap with
  | some cb => (cb, s)
  | none => (none, s)

/-- `RegisterInsertBlockCb`: the returned error and the tables after. -/
def RegisterInsertBlockCb (name : String) (insertBlockCb : Option B) (s : Registry FT V A B) :
    Option String × Registry FT V A B :=
  match mapGet name s.insertBlockCbMap with
  | some _ => (some "the name has registered in insertBlockCbMap", s)
  | none => (none, { s with insertBlockCbMap := mapAssign name insertBlockCb s.insertBlockCbMap })

/-- `GetInsertBlockCb`: the returned callback and the tables after. -/
def GetInsertBlockCb (name : String) (s : Registry FT V A B) : Option B × Registry FT V A B :=
  match mapGet name s.insertBlockCbMap with
  | some cb => (cb, s)
  | none => (none, s)

/-- `GetInsertBlockCbMap`: hands out the hook table itself. -/
def GetInsertBlockCbMap (s : Registry FT V A B) : GoMap String (Option B) :=
  s.insertBlockCbMap

/-- One registration call, on any of the three tables. -/
inductive RegisterCall (FT V A B : Type) where
  | validate (function : FT) (cb : Option V)
  | apply (function : FT) (cb : Option A)
  | insertBlock (name : String) (cb : Option B)

/-- The tables after one registration call (its error is dropped). -/
def RegisterCall.run (c : RegisterCall FT V A B) (s : Registry FT V A B) : Registry FT V A B :=
  match c with
  | .validate f cb => (RegisterValidateCb f cb s).2
  | .apply f cb => (RegisterApplyCb f cb s).2
  | .insertBlock n cb => (RegisterInsertBlockCb n cb s).2

/-- The tables after a sequence of registration calls, first call first. -/
def runCalls (cs : List (RegisterCall FT V A B)) (s : Registry FT V A B) : Registry FT V A B :=
  cs.foldl (fun acc c => c.run acc) s

/-- The registration calls for a list of hooks, one `RegisterInsertBlockCb` per hook. -/
def registerHooks (hooks : List (String × Option B)) : List (RegisterCall FT V A B) :=
  hooks.map (fun e => RegisterCall.insertBlock e.1 e.2)

end RegistryOps

/-! ### priv_key.go -/

/-- Type byte of `PrivKeyEd25519`. -/
def TypeEd25519 : UInt8 := 0x01

/-- Type byte of `PrivKeySecp256k1`. -/
def TypeSecp256k1 : UInt8 := 0x02

/-- Type byte of `EthereumPrivKey`. -/
def TypeEthereum : UInt8 := 0x03

/-- Type byte of `BLSPrivKey`. -/
def TypeBls : UInt8 := 0x04

/-- `type PrivKeyEd25519 [64]byte`. -/
structure PrivKeyEd25519 where
  data : List UInt8
  size : data.length = 64
deriving DecidableEq

/-- `type PrivKeySecp256k1 [32]byte`. -/
structure PrivKeySecp256k1 where
  data : List UInt8
  size : data.length = 32
deriving DecidableEq

/-- `type EthereumPrivKey []byte`. -/
structure EthereumPrivKey where
  data : List UInt8
deriving DecidableEq

/-- `type BLSPrivKey []byte`. -/
structure BLSPrivKey where
  data : List UInt8
deriving DecidableEq

/-- The four implementations that `init` registers with `privKeyMapper`. -/
inductive ConcreteKey where
  | ed25519 (k : PrivKeyEd25519)
  | secp256k1 (k : PrivKeySecp256k1)
  | ethereum (k : EthereumPrivKey)
  | bls (k : BLSPrivKey)
deriving DecidableEq

/-- A value of the interface type `PrivKey`: the nil interface, one of the four concrete
keys, or a `PrivKeyS` struct, which embeds a `PrivKey` and so implements the interface. -/
inductive PrivKey where
  | nil
  | concrete (k : ConcreteKey)
  | privKeyS (inner : PrivKey)
deriving DecidableEq

/-- The scheme of a concrete key, that is, its Go type. -/
inductive Scheme where
  | ed25519
  | secp256k1
  | ethereum
  | bls
deriving DecidableEq

/-- The Go type of a concrete key. -/
def ConcreteKey.scheme : ConcreteKey → Scheme
  | .ed25519 _ => .ed25519
  | .secp256k1 _ => .secp256k1
  | .ethereum _ => .ethereum
  | .bls _ => .bls

/-- The key material of a concrete key. -/
def ConcreteKey.keyBytes : ConcreteKey → List UInt8
  | .ed25519 k => k.data
  | .secp256k1 k => k.data
  | .ethereum k => k.data
  | .bls k => k.data

/-- The type byte under which `init` registers each implementation. -/
def ConcreteKey.typeByte : ConcreteKey → UInt8
  | .ed25519 _ => TypeEd25519
  | .secp256k1 _ => TypeSecp256k1
  | .ethereum _ => TypeEthereum
  | .bls _ => TypeBls

/-- Modelled from the spec: go-wire's coding of a byte slice (`[]byte`), which is not among
the sources.  The spec fixes only that an encoded key is "a one-byte scheme tag" followed by
the key material, so the slice coding is left open. -/
structure WireCodec where
  writeByteSlice : List UInt8 → List UInt8
  readByteSlice : List UInt8 → Option (List UInt8 × List UInt8)

/-- Modelled from the spec: go-wire's coding of the key material, which is not among the
sources; a fixed-size byte array is written as its bytes, a byte slice by `w`. -/
def writeKeyMaterial (w : WireCodec) : ConcreteKey → List UInt8
  | .ed25519 k => k.data
  | .secp256k1 k => k.data
  | .ethereum k => w.writeByteSlice k.data
  | .bls k => w.writeByteSlice k.data

/-- Modelled from the spec: `wire.BinaryBytes(struct{ PrivKey }{k})` of go-wire, which is
not among the sources: "the encoded form prefixes a one-byte scheme tag", the type byte
registered in `init`, to the coding of the key material. -/
def wireBinaryBytes (w : WireCodec) (k : ConcreteKey) : List UInt8 :=
  k.typeByte :: writeKeyMaterial w k

/-- Modelled from the spec: `wire.ReadBinaryBytes(bs, &privKey)` of go-wire, which is not
among the sources: "any consumer decodes without prior knowledge of the originating
scheme", by reading the one-byte tag and then the key material of the type registered
under it.  Tag `0x00` is go-wire's nil interface; a tag that `init` did not register, or
input that ends early, is an error. -/
def wireReadBinaryBytes (w : WireCodec) : List UInt8 → Except String PrivKey
  | [] => .error "EOF"
  | t :: rest =>
    if t = 0x00 then .ok .nil
    else if t = TypeEd25519 then
      if h : 64 ≤ rest.length then
        .ok (.concrete (.ed25519 ⟨rest.take 64, by simp [List.length_take, h]⟩))
      else .error "EOF"
    else if t = TypeSecp256k1 then
      if h : 32 ≤ rest.length then
        .ok (.concrete (.secp256k1 ⟨rest.take 32, by simp [List.length_take, h]⟩))
      else .error "EOF"
    else if t = TypeEthereum then
      match w.readByteSlice rest with
      | some (d, _) => .ok (.concrete (.ethereum ⟨d⟩))
      | none => .error "EOF"
    else if t = TypeBls then
      match w.readByteSlice rest with
      | some (d, _) => .ok (.concrete (.bls ⟨d⟩))
      | none => .error "EOF"
    else .error "unknown type byte"

/-- `PrivKeyFromBytes`. -/
def PrivKeyFromBytes (w : WireCodec) (privKeyBytes : List UInt8) : Except String PrivKey :=
  wireReadBinaryBytes w privKeyBytes

/-- Go's `bytes.Equal`. -/
def bytesEqual (a b : List UInt8) : Bool :=
  decide (a = b)

/-- `PrivKeyEd25519.Bytes`. -/
def PrivKeyEd25519.Bytes (w : WireCodec) (privKey : PrivKeyEd25519) : List UInt8 :=
  wireBinaryBytes w (.ed25519 privKey)

/-- `PrivKeySecp256k1.Bytes`. -/
def PrivKeySecp256k1.Bytes (w : WireCodec) (privKey : PrivKeySecp256k1) : List UInt8 :=
  wireBinaryBytes w (.secp256k1 privKey)

/-- `EthereumPrivKey.Bytes`. -/
def EthereumPrivKey.Bytes (w : WireCodec) (privKey : EthereumPrivKey) : List UInt8 :=
  wireBinaryBytes w (.ethereum privKey)

/-- `BLSPrivKey.Bytes`: the key itself. -/
def BLSPrivKey.Bytes (privKey : BLSPrivKey) : List UInt8 :=
  privKey.data

/-- `PrivKeyEd25519.Equals`. -/
def PrivKeyEd25519.Equals (privKey : PrivKeyEd25519) (other : PrivKey) : Bool :=
  match other with
  | .concrete (.ed25519 otherEd) => bytesEqual privKey.data otherEd.data
  | _ => false

/-- `PrivKeySecp256k1.Equals`. -/
def PrivKeySecp256k1.Equals (privKey : PrivKeySecp256k1) (other : PrivKey) : Bool :=
  match other with
  | .concrete (.secp256k1 otherSecp) => bytesEqual privKey.data otherSecp.data
  | _ => false

/-- `EthereumPrivKey.Equals`. -/
def EthereumPrivKey.Equals (privKey : EthereumPrivKey) (other : PrivKey) : Bool :=
  match other with
  | .concrete (.ethereum otherEd) => bytesEqual privKey.data otherEd.data
  | _ => false

/-- `BLSPrivKey.Equals`. -/
def BLSPrivKey.Equals (privKey : BLSPrivKey) (other : PrivKey) : Bool :=
  match other with
  | .concrete (.bls otherSk) => bytesEqual privKey.data otherSk.data
  | _ => false

/-- `Bytes` of a concrete key, by its type. -/
def ConcreteKey.Bytes (w : WireCodec) : ConcreteKey → List UInt8
  | .ed25519 k => k.Bytes w
  | .secp256k1 k => k.Bytes w
  | .ethereum k => k.Bytes w
  | .bls k => k.Bytes

/-- `Equals` of a concrete key, by its type. -/
def ConcreteKey.Equals : ConcreteKey → PrivKey → Bool
  | .ed25519 k, other => k.Equals other
  | .secp256k1 k, other => k.Equals other
  | .ethereum k, other => k.Equals other
  | .bls k, other => k.Equals other

/-- The interface call `a.Equals(b)`.  On the nil interface the call panics (`none`);
`PrivKeyS` has no `Equals` of its own and gets that of the `PrivKey` it embeds. -/
def PrivKey.Equals : PrivKey → PrivKey → Option Bool
  | .nil, _ => none
  | .concrete k, other => some (k.Equals other)
  | .privKeyS inner, other => inner.Equals other

/-- `WrapPrivKey`: strips every `PrivKeyS` layer, then wraps once. -/
def WrapPrivKey : PrivKey → PrivKey
  | .privKeyS inner => WrapPrivKey inner
  | pk => .privKeyS pk

/-! ### init.go -/

/-- `types.RewardSchemeDoc`; each field is the number its decimal string denotes. -/
structure RewardSchemeDoc where
  TTotalReward : Nat
  PreAllocated : Nat
  AddedPerYear : Nat
  RewardFirstYear : Nat
  DescendPerYear : Nat
  Allocated : Nat
  EpochNumberPerYear : Nat
deriving DecidableEq

/-- `types.OneEpochDoc`, numeric fields only; each is the number its decimal string denotes. -/
structure OneEpochDoc where
  Number : Nat
  RewardPerBlock : Nat
  StartBlock : Nat
  EndBlock : Nat
  BlockGenerated : Nat
  Status : Nat
deriving DecidableEq

/-- `types.GenesisDoc`, reward and epoch parts. -/
structure GenesisDoc where
  RewardScheme : RewardSchemeDoc
  CurrentEpoch : OneEpochDoc
deriving DecidableEq

/-- The `genDoc` that `init_em_files` builds when no genesis file exists. -/
def genDoc : GenesisDoc :=
  { RewardScheme :=
      { TTotalReward := 210000000000000000000000000
        PreAllocated := 178500000000000000000000000
        AddedPerYear := 0
        RewardFirstYear := 5727300000000000000000000
        DescendPerYear := 572730000000000000000000
        Allocated := 0
        EpochNumberPerYear := 525600 }
    CurrentEpoch :=
      { Number := 0
        RewardPerBlock := 1666666666666666666666667
        StartBlock := 0
        EndBlock := 1295999
        BlockGenerated := 0
        Status := 0 } }

/-- Modelled from the spec: the yearly pool of the reward engine, which is not among the
sources: "each year's pool decays linearly from the prior year's pool by descendPerYear",
so year `n` gets `rewardFirstYear - n * descendPerYear` while that is positive, and `0`
afterwards. -/
def yearPool (rs : RewardSchemeDoc) (n : Nat) : Nat :=
  if n * rs.DescendPerYear < rs.RewardFirstYear then rs.RewardFirstYear - n * rs.DescendPerYear
  else 0

/-- Modelled from the spec: the "cumulative allocated" reward of the reward engine, which
is not among the sources, after the pools of the first `years` years were allocated. -/
def allocatedAfter (rs : RewardSchemeDoc) : Nat → Nat
  | 0 => rs.Allocated
  | years + 1 => allocatedAfter rs years + yearPool rs years

/-- The length in blocks of an epoch, `endBlock - startBlock + 1`. -/
def OneEpochDoc.lengthInBlocks (e : OneEpochDoc) : Nat :=
  e.EndBlock - e.StartBlock + 1

/-! ### server.go -/

/-- A Go string: a sequence of bytes. -/
abbrev GoString := List UInt8

/-- The string literal `"tcp"`. -/
def tcpLit : GoString := [0x74, 0x63, 0x70]

/-- The string literal `"://"`. -/
def schemeSep : GoString := [0x3a, 0x2f, 0x2f]

/-- Go's `strings.Index(s, sep)`: where `sep` first occurs in `s`; `none` is Go's `-1`. -/
def stringsIndex (sep : GoString) : GoString → Option Nat
  | [] => if sep.isPrefixOf [] then some 0 else none
  | c :: rest =>
    if sep.isPrefixOf (c :: rest) then some 0
    else (stringsIndex sep rest).map (fun i => i + 1)

/-- The loop of Go's `strings.SplitN` for a non-empty `sep`, with `cuts` cuts left. -/
def genSplit (sep : GoString) : Nat → GoString → List GoString
  | 0, s => [s]
  | cuts + 1, s =>
    match stringsIndex sep s with
    | none => [s]
    | some m => s.take m :: genSplit sep cuts (s.drop (m + sep.length))

/-- Go's `strings.SplitN(s, sep, n)` for `n ≥ 0` and a non-empty `sep` (the only case
`ProtocolAndAddress` uses): at most `n` pieces, the last one the unsplit rest. -/
def stringsSplitN (s sep : GoString) (n : Nat) : List GoString :=
  match n with
  | 0 => []
  | k + 1 => genSplit sep k s

/-- `ProtocolAndAddress`. -/
def ProtocolAndAddress (listenAddr : GoString) : GoString × GoString :=
  match stringsSplitN listenAddr schemeSep 2 with
  | [p, a] => (p, a)
  | _ => (tcpLit, listenAddr)

/-! ### priv_key.go: JSON -/

/-- The `data.Encoder` of go-data that the JSON methods call; go-data is not among the
sources, so the encoder is a parameter.  `Marshal` returns the encoding and an error
(`none` is Go's `nil`); `Unmarshal` returns what it stores through the pointer to the
byte slice it is given, and an error. -/
structure ByteEncoder where
  Marshal : List UInt8 → List UInt8 × Option String
  Unmarshal : List UInt8 → List UInt8 → List UInt8 × Option String

/-- Go's built-in `copy(dst, src)`: the first `min(len(dst), len(src))` bytes of `dst` are
overwritten; the result is `dst` afterwards, of unchanged length. -/
def goCopy (dst src : List UInt8) : List UInt8 :=
  src.take dst.length ++ dst.drop src.length

/-- The zero value of `PrivKeyEd25519`: 64 zero bytes. -/
def PrivKeyEd25519.zero : PrivKeyEd25519 :=
  ⟨List.replicate 64 0, by simp⟩

/-- The zero value of `PrivKeySecp256k1`: 32 zero bytes. -/
def PrivKeySecp256k1.zero : PrivKeySecp256k1 :=
  ⟨List.replicate 32 0, by simp⟩

/-- The zero value of `EthereumPrivKey`: the nil slice. -/
def EthereumPrivKey.zero : EthereumPrivKey :=
  ⟨[]⟩

/-- The zero value of `BLSPrivKey`: the nil slice. -/
def BLSPrivKey.zero : BLSPrivKey :=
  ⟨[]⟩

/-- `PrivKeyEd25519.MarshalJSON`. -/
def PrivKeyEd25519.MarshalJSON (e : ByteEncoder) (p : PrivKeyEd25519) :
    List UInt8 × Option String :=
  e.Marshal p.data

/-- `PrivKeyEd25519.UnmarshalJSON`: the key after the call, and the returned error. -/
def PrivKeyEd25519.UnmarshalJSON (e : ByteEncoder) (p : PrivKeyEd25519) (enc : List UInt8) :
    PrivKeyEd25519 × Option String :=
  let r := e.Unmarshal [] enc
  (⟨goCopy p.data r.1, by simp [goCopy, p.size]; omega⟩, r.2)

/-- `PrivKeySecp256k1.MarshalJSON`. -/
def PrivKeySecp256k1.MarshalJSON (e : ByteEncoder) (p : PrivKeySecp256k1) :
    List UInt8 × Option String :=
  e.Marshal p.data

/-- `PrivKeySecp256k1.UnmarshalJSON`: the key after the call, and the returned error. -/
def PrivKeySecp256k1.UnmarshalJSON (e : ByteEncoder) (p : PrivKeySecp256k1)
    (enc : List UInt8) : PrivKeySecp256k1 × Option String :=
  let r := e.Unmarshal [] enc
  (⟨goCopy p.data r.1, by simp [goCopy, p.size]; omega⟩, r.2)

/-- `EthereumPrivKey.MarshalJSON`. -/
def EthereumPrivKey.MarshalJSON (e : ByteEncoder) (privKey : EthereumPrivKey) :
    List UInt8 × Option String :=
  e.Marshal privKey.data

/-- `EthereumPrivKey.UnmarshalJSON`: the key after the call, and the returned error. -/
def EthereumPrivKey.UnmarshalJSON (e : ByteEncoder) (privKey : EthereumPrivKey)
    (enc : List UInt8) : EthereumPrivKey × Option String :=
  let r := e.Unmarshal [] enc
  (⟨goCopy privKey.data r.1⟩, r.2)

/-- `BLSPrivKey.MarshalJSON`. -/
def BLSPrivKey.MarshalJSON (e : ByteEncoder) (privKey : BLSPrivKey) :
    List UInt8 × Option String :=
  e.Marshal privKey.data

/-- `BLSPrivKey.UnmarshalJSON`: the key after the call, and the returned error. -/
def BLSPrivKey.UnmarshalJSON (e : ByteEncoder) (privKey : BLSPrivKey) (enc : List UInt8) :
    BLSPrivKey × Option String :=
  let r := e.Unmarshal [] enc
  (⟨goCopy privKey.data r.1⟩, r.2)

/-- An encoder that writes the bytes as they are; it serves to evaluate the JSON methods. -/
def plainEncoder : ByteEncoder :=
  { Marshal := fun d => (d, none), Unmarshal := fun _ src => (src, none) }

/-! ### priv_key.go: signing with an Ethereum key -/

/-- The functions of go-ethereum's `crypto` package that `EthereumPrivKey` calls; the
package is not among the sources, so they are parameters.  `Priv` is `*ecdsa.PrivateKey`;
`FromECDSAPub` is taken at the public key of the private key it is given. -/
structure EthCrypto (Priv : Type) where
  ToECDSA : List UInt8 → Except String Priv
  Keccak256 : List UInt8 → List UInt8
  Sign : List UInt8 → Priv → Except String (List UInt8)
  FromECDSAPub : Priv → List UInt8

/-- `EthereumPrivKey.Sign`: `none` is the nil `Signature`, `some sig` the
`EthereumSignature(sig)`. -/
def EthereumPrivKey.Sign {Priv : Type} (c : EthCrypto Priv) (privKey : EthereumPrivKey)
    (msg : List UInt8) : Option (List UInt8) :=
  match c.ToECDSA privKey.data with
  | .error _ => none
  | .ok priv =>
    match c.Sign (c.Keccak256 msg) priv with
    | .error _ => none
    | .ok sig => some sig

/-- `EthereumPrivKey.PubKey`: `.ok pub` is the returned `EthereumPubKey(pub)`, `.error err`
is `panic(err)`. -/
def EthereumPrivKey.PubKey {Priv : Type} (c : EthCrypto Priv) (privKey : EthereumPrivKey) :
    Except String (List UInt8) :=
  match c.ToECDSA privKey.data with
  | .error err => .error err
  | .ok priv => .ok (c.FromECDSAPub priv)

/-- A stand-in for the `crypto` package that keeps the length check of `ToECDSA` (a key has
32 bytes) and leaves the curve arithmetic out; it serves to evaluate `Sign` and `PubKey`. -/
def lengthCheckedCrypto : EthCrypto (List UInt8) :=
  { ToECDSA := fun d =>
      if d.length = 32 then .ok d else .error "invalid length, need 256 bits"
    Keccak256 := fun m => m
    Sign := fun hash priv => .ok (hash ++ priv)
    FromECDSAPub := fun priv => priv }

/-! ### priv_key.go: wrapping -/

/-- Whether a `PrivKey` value is a `PrivKeyS`, the test `pk.(PrivKeyS)` of `WrapPrivKey`. -/
def PrivKey.isPrivKeyS : PrivKey → Bool
  | .privKeyS _ => true
  | _ => false

/-- The innermost key of a `PrivKey` value that is not a `PrivKeyS`: what is left when
every `PrivKeyS` layer is taken off. -/
def PrivKey.innermost : PrivKey → PrivKey
  | .privKeyS inner => inner.innermost
  | pk => pk

/-- The depth of `PrivKeyS` nesting of a `PrivKey` value. -/
def PrivKey.depth : PrivKey → Nat
  | .privKeyS inner => inner.depth + 1
  | _ => 0

/-- The loop of `WrapPrivKey` run for at most `fuel` rounds: `none` when the loop is still
running after them, `some` of the returned value otherwise. -/
def wrapLoop : Nat → PrivKey → Option PrivKey
  | 0, .privKeyS _ => none
  | fuel + 1, .privKeyS inner => wrapLoop fuel inner
  | _, pk => some (.privKeyS pk)

/-! ### init.go: checkAccount -/

/-- An entry of `core.Genesis.Alloc`; `Storage` is left out, `checkAccount` reads `Balance`
only. -/
structure AllocAccount where
  Code : String
  Balance : String
  Nonce : String
deriving DecidableEq

/-- `core.Genesis`, the two fields that `checkAccount` reads. -/
structure Genesis where
  Coinbase : String
  Alloc : GoMap String AllocAccount

section CheckAccount

variable {Addr : Type} [DecidableEq Addr]

/-- The `range` loop of `checkAccount` over the entries in the order they are visited:
`balance` and `found` at the end of the loop. -/
def checkAccountLoop (HexToAddress : String → Addr) (String2Big : String → Int)
    (coinbase : Addr) : List (String × AllocAccount) → Int × Bool
  | [] => (-1, false)
  | (addr, account) :: rest =>
    if coinbase = HexToAddress addr then (String2Big account.Balance, true)
    else checkAccountLoop HexToAddress String2Big coinbase rest

/-- `checkAccount`, with `common.HexToAddress`, `common.String2Big` and the zero
`common.Address` of go-ethereum as parameters, for the order `visit` in which `range`
goes over `Alloc`: the returned address, amount and error (`none` is Go's `nil`). -/
def checkAccount (HexToAddress : String → Addr) (String2Big : String → Int) (zero : Addr)
    (coreGenesis : Genesis) (visit : List (String × AllocAccount)) :
    Addr × Int × Option String :=
  let coinbase := HexToAddress coreGenesis.Coinbase
  let amount : Int := 10
  let r := checkAccountLoop HexToAddress String2Big coinbase visit
  if !r.2 then (zero, 0, some "invalidate eth_account")
  else if r.1 < amount then (zero, 0, some "no enough balance")
  else (coinbase, amount, none)

end CheckAccount

/-! ## Part 2. Properties -/

/-! ### Go maps -/

section MapLemmas

variable {K H : Type} [DecidableEq K]

theorem mapGet_mapAssign_self (k : K) (v : H) (m : GoMap K H) :
    mapGet k (mapAssign k v m) = some v := by
  simp [mapAssign, mapGet]

theorem mapGet_filter_ne (k k' : K) (m : GoMap K H) (hne : k' ≠ k) :
    mapGet k' (m.filter (fun e => decide (e.1 ≠ k))) = mapGet k' m := by
  induction m with
  | nil => rfl
  | cons e rest ih =>
    obtain ⟨a, b⟩ := e
    by_cases ha : a = k
    · subst ha
      simp_all [List.filter, mapGet]
    · by_cases hk : k' = a
      · subst hk
        simp_all [List.filter, mapGet]
      · simp_all [List.filter, mapGet]

theorem mapGet_mapAssign_ne (k k' : K) (v : H) (m : GoMap K H) (hne : k' ≠ k) :
    mapGet k' (mapAssign k v m) = mapGet k' m := by
  have h := mapGet_filter_ne k k' m hne
  simp_all [mapAssign, mapGet]

end MapLemmas

/-! ### tx_callback.go: registration -/

section RegistryProps

variable {FT V A B : Type} [DecidableEq FT]

theorem RegisterValidateCb_bound (f : FT) (cb : Option V) (s : Registry FT V A B)
    (h : (mapGet f s.validateCbMap).isSome = true) :
    (RegisterValidateCb f cb s).1 ≠ none ∧ (RegisterValidateCb f cb s).2 = s := by
  unfold RegisterValidateCb
  cases hg : mapGet f s.validateCbMap with
  | none => simp [hg] at h
  | some v => simp

theorem RegisterValidateCb_unbound (f : FT) (cb : Option V) (s : Registry FT V A B)
    (h : mapGet f s.validateCbMap = none) :
    RegisterValidateCb f cb s =
      (none, { s with validateCbMap := mapAssign f cb s.validateCbMap }) := by
  unfold RegisterValidateCb
  simp [h]

theorem RegisterApplyCb_bound (f : FT) (cb : Option A) (s : Registry FT V A B)
    (h : (mapGet f s.applyCbMap).isSome = true) :
    (RegisterApplyCb f cb s).1 ≠ none ∧ (RegisterApplyCb f cb s).2 = s := by
  unfold RegisterApplyCb
  cases hg : mapGet f s.applyCbMap with
  | none => simp [hg] at h
  | some v => simp

theorem RegisterApplyCb_unbound (f : FT) (cb : Option A) (s : Registry FT V A B)
    (h : mapGet f s.applyCbMap = none) :
    RegisterApplyCb f cb s =
      (none, { s with applyCbMap := mapAssign f cb s.applyCbMap }) := by
  unfold RegisterApplyCb
  simp [h]

omit [DecidableEq FT] in
theorem RegisterInsertBlockCb_bound (n : String) (cb : Option B) (s : Registry FT V A B)
    (h : (mapGet n s.insertBlockCbMap).isSome = true) :
    (RegisterInsertBlockCb n cb s).1 ≠ none ∧ (RegisterInsertBlockCb n cb s).2 = s := by
  unfold RegisterInsertBlockCb
  cases hg : mapGet n s.insertBlockCbMap with
  | none => simp [hg] at h
  | some v => simp

omit [DecidableEq FT] in
theorem RegisterInsertBlockCb_unbound (n : String) (cb : Option B) (s : Registry FT V A B)
    (h : mapGet n s.insertBlockCbMap = none) :
    RegisterInsertBlockCb n cb s =
      (none, { s with insertBlockCbMap := mapAssign n cb s.insertBlockCbMap }) := by
  unfold RegisterInsertBlockCb
  simp [h]

/-- C1. For each of the three tables, a registration returns an error exactly when the
key is already bound; an error leaves all three tables as they were; a success binds the
key to the given handler, keeps every other binding of that table, and leaves the other
two tables as they were. -/
theorem register_contract (s : Registry FT V A B) (f : FT) (n : String)
    (vcb : Option V) (acb : Option A) (bcb : Option B) :
    (((RegisterValidateCb f vcb s).1 ≠ none ↔ (mapGet f s.validateCbMap).isSome = true) ∧
      ((RegisterValidateCb f vcb s).1 ≠ none → (RegisterValidateCb f vcb s).2 = s) ∧
      ((RegisterValidateCb f vcb s).1 = none →
        mapGet f (RegisterValidateCb f vcb s).2.validateCbMap = some vcb ∧
        ∀ g, g ≠ f →
          mapGet g (RegisterValidateCb f vcb s).2.validateCbMap = mapGet g s.validateCbMap) ∧
      (RegisterValidateCb f vcb s).2.applyCbMap = s.applyCbMap ∧
      (RegisterValidateCb f vcb s).2.insertBlockCbMap = s.insertBlockCbMap) ∧
    (((RegisterApplyCb f acb s).1 ≠ none ↔ (mapGet f s.applyCbMap).isSome = true) ∧
      ((RegisterApplyCb f acb s).1 ≠ none → (RegisterApplyCb f acb s).2 = s) ∧
      ((RegisterApplyCb f acb s).1 = none →
        mapGet f (RegisterApplyCb f acb s).2.applyCbMap = some acb ∧
        ∀ g, g ≠ f →
          mapGet g (RegisterApplyCb f acb s).2.applyCbMap = mapGet g s.applyCbMap) ∧
      (RegisterApplyCb f acb s).2.validateCbMap = s.validateCbMap ∧
      (RegisterApplyCb f acb s).2.insertBlockCbMap = s.insertBlockCbMap) ∧
    (((RegisterInsertBlockCb n bcb s).1 ≠ none ↔ (mapGet n s.insertBlockCbMap).isSome = true) ∧
      ((RegisterInsertBlockCb n bcb s).1 ≠ none → (RegisterInsertBlockCb n bcb s).2 = s) ∧
      ((RegisterInsertBlockCb n bcb s).1 = none →
        mapGet n (RegisterInsertBlockCb n bcb s).2.insertBlockCbMap = some bcb ∧
        ∀ m, m ≠ n →
          mapGet m (RegisterInsertBlockCb n bcb s).2.insertBlockCbMap
            = mapGet m s.insertBlockCbMap) ∧
      (RegisterInsertBlockCb n bcb s).2.validateCbMap = s.validateCbMap ∧
      (RegisterInsertBlockCb n bcb s).2.applyCbMap = s.applyCbMap) := by
  refine ⟨?_, ?_, ?_⟩
  · cases hg : mapGet f s.validateCbMap with
    | none =>
      rw [RegisterValidateCb_unbound f vcb s hg]
      simp [mapGet_mapAssign_self]
      intro g hne
      exact mapGet_mapAssign_ne f g vcb _ hne
    | some v =>
      have hb := RegisterValidateCb_bound f vcb s (by simp [hg])
      simp [hb.1, hb.2]
  · cases hg : mapGet f s.applyCbMap with
    | none =>
      rw [RegisterApplyCb_unbound f acb s hg]
      simp [mapGet_mapAssign_self]
      intro g hne
      exact mapGet_mapAssign_ne f g acb _ hne
    | some v =>
      have hb := RegisterApplyCb_bound f acb s (by simp [hg])
      simp [hb.1, hb.2]
  · cases hg : mapGet n s.insertBlockCbMap with
    | none =>
      rw [RegisterInsertBlockCb_unbound n bcb s hg]
      simp [mapGet_mapAssign_self]
      intro m hne
      exact mapGet_mapAssign_ne n m bcb _ hne
    | some v =>
      have hb := RegisterInsertBlockCb_bound n bcb s (by simp [hg])
      simp [hb.1, hb.2]

/-! ### tx_callback.go: lookup -/

theorem RegisterValidateCb_others (f : FT) (cb : Option V) (s : Registry FT V A B) :
    (RegisterValidateCb f cb s).2.applyCbMap = s.applyCbMap ∧
    (RegisterValidateCb f cb s).2.insertBlockCbMap = s.insertBlockCbMap := by
  unfold RegisterValidateCb
  split <;> exact ⟨rfl, rfl⟩

theorem RegisterApplyCb_others (f : FT) (cb : Option A) (s : Registry FT V A B) :
    (RegisterApplyCb f cb s).2.validateCbMap = s.validateCbMap ∧
    (RegisterApplyCb f cb s).2.insertBlockCbMap = s.insertBlockCbMap := by
  unfold RegisterApplyCb
  split <;> exact ⟨rfl, rfl⟩

omit [DecidableEq FT] in
theorem RegisterInsertBlockCb_others (n : String) (cb : Option B) (s : Registry FT V A B) :
    (RegisterInsertBlockCb n cb s).2.validateCbMap = s.validateCbMap ∧
    (RegisterInsertBlockCb n cb s).2.applyCbMap = s.applyCbMap := by
  unfold RegisterInsertBlockCb
  split <;> exact ⟨rfl, rfl⟩

theorem RegisterValidateCb_keeps (f g : FT) (cb h : Option V) (s : Registry FT V A B)
    (hg : mapGet g s.validateCbMap = some h) :
    mapGet g (RegisterValidateCb f cb s).2.validateCbMap = some h := by
  cases hf : mapGet f s.validateCbMap with
  | none =>
    have hne : g ≠ f := by
      intro e
      subst e
      simp [hf] at hg
    rw [RegisterValidateCb_unbound f cb s hf]
    simpa [mapGet_mapAssign_ne f g cb _ hne] using hg
  | some v =>
    rw [(RegisterValidateCb_bound f cb s (by simp [hf])).2]
    exact hg

theorem RegisterApplyCb_keeps (f g : FT) (cb h : Option A) (s : Registry FT V A B)
    (hg : mapGet g s.applyCbMap = some h) :
    mapGet g (RegisterApplyCb f cb s).2.applyCbMap = some h := by
  cases hf : mapGet f s.applyCbMap with
  | none =>
    have hne : g ≠ f := by
      intro e
      subst e
      simp [hf] at hg
    rw [RegisterApplyCb_unbound f cb s hf]
    simpa [mapGet_mapAssign_ne f g cb _ hne] using hg
  | some v =>
    rw [(RegisterApplyCb_bound f cb s (by simp [hf])).2]
    exact hg

omit [DecidableEq FT] in
theorem RegisterInsertBlockCb_keeps (n m : String) (cb h : Option B) (s : Registry FT V A B)
    (hm : mapGet m s.insertBlockCbMap = some h) :
    mapGet m (RegisterInsertBlockCb n cb s).2.insertBlockCbMap = some h := by
  cases hn : mapGet n s.insertBlockCbMap with
  | none =>
    have hne : m ≠ n := by
      intro e
      subst e
      simp [hn] at hm
    rw [RegisterInsertBlockCb_unbound n cb s hn]
    simpa [mapGet_mapAssign_ne n m cb _ hne] using hm
  | some v =>
    rw [(RegisterInsertBlockCb_bound n cb s (by simp [hn])).2]
    exact hm

theorem run_keeps (c : RegisterCall FT V A B) (s : Registry FT V A B) :
    (∀ g h, mapGet g s.validateCbMap = some h → mapGet g (c.run s).validateCbMap = some h) ∧
    (∀ g h, mapGet g s.applyCbMap = some h → mapGet g (c.run s).applyCbMap = some h) ∧
    (∀ m h, mapGet m s.insertBlockCbMap = some h →
      mapGet m (c.run s).insertBlockCbMap = some h) := by
  cases c with
  | validate f cb =>
    refine ⟨fun g h hg => RegisterValidateCb_keeps f g cb h s hg, ?_, ?_⟩
    · intro g h hg
      simpa [RegisterCall.run, (RegisterValidateCb_others f cb s).1] using hg
    · intro m h hm
      simpa [RegisterCall.run, (RegisterValidateCb_others f cb s).2] using hm
  | apply f cb =>
    refine ⟨?_, fun g h hg => RegisterApplyCb_keeps f g cb h s hg, ?_⟩
    · intro g h hg
      simpa [RegisterCall.run, (RegisterApplyCb_others f cb s).1] using hg
    · intro m h hm
      simpa [RegisterCall.run, (RegisterApplyCb_others f cb s).2] using hm
  | insertBlock n cb =>
    refine ⟨?_, ?_, fun m h hm => RegisterInsertBlockCb_keeps n m cb h s hm⟩
    · intro g h hg
      simpa [RegisterCall.run, (RegisterInsertBlockCb_others n cb s).1] using hg
    · intro g h hg
      simpa [RegisterCall.run, (RegisterInsertBlockCb_others n cb s).2] using hg

theorem runCalls_keeps (cs : List (RegisterCall FT V A B)) (s : Registry FT V A B) :
    (∀ g h, mapGet g s.validateCbMap = some h →
      mapGet g (runCalls cs s).validateCbMap = some h) ∧
    (∀ g h, mapGet g s.applyCbMap = some h → mapGet g (runCalls cs s).applyCbMap = some h) ∧
    (∀ m h, mapGet m s.insertBlockCbMap = some h →
      mapGet m (runCalls cs s).insertBlockCbMap = some h) := by
  induction cs generalizing s with
  | nil => exact ⟨fun _ _ h => h, fun _ _ h => h, fun _ _ h => h⟩
  | cons c rest ih =>
    have h1 := run_keeps c s
    have h2 := ih (c.run s)
    refine ⟨fun g h hg => ?_, fun g h hg => ?_, fun m h hm => ?_⟩
    · exact h2.1 g h (h1.1 g h hg)
    · exact h2.2.1 g h (h1.2.1 g h hg)
    · exact h2.2.2 m h (h1.2.2 m h hm)

theorem GetValidateCb_eq (f : FT) (s : Registry FT V A B) :
    GetValidateCb f s = ((mapGet f s.validateCbMap).getD none, s) := by
  unfold GetValidateCb
  cases mapGet f s.validateCbMap <;> rfl

theorem GetApplyCb_eq (f : FT) (s : Registry FT V A B) :
    GetApplyCb f s = ((mapGet f s.applyCbMap).getD none, s) := by
  unfold GetApplyCb
  cases mapGet f s.applyCbMap <;> rfl

omit [DecidableEq FT] in
theorem GetInsertBlockCb_eq (n : String) (s : Registry FT V A B) :
    GetInsertBlockCb n s = ((mapGet n s.insertBlockCbMap).getD none, s) := by
  unfold GetInsertBlockCb
  cases mapGet n s.insertBlockCbMap <;> rfl

/-- C2 (as amended). For each of the three tables and every state of the tables: the
lookup leaves all tables as they were; once a registration of a key succeeded, the lookup
returns the handler given there, whatever registrations follow; the lookup reports nil
exactly when the key is unbound or bound to a nil handler; and the key is unbound exactly
when a registration of it would still succeed. -/
theorem lookup_contract (s : Registry FT V A B) (post : List (RegisterCall FT V A B))
    (f : FT) (n : String) (vcb : Option V) (acb : Option A) (bcb : Option B) :
    ((GetValidateCb f s).2 = s ∧
      (mapGet f s.validateCbMap = none →
        (GetValidateCb f (runCalls post (RegisterValidateCb f vcb s).2)).1 = vcb) ∧
      ((GetValidateCb f s).1 = none ↔
        mapGet f s.validateCbMap = none ∨ mapGet f s.validateCbMap = some none) ∧
      (mapGet f s.validateCbMap = none ↔ (RegisterValidateCb f vcb s).1 = none)) ∧
    ((GetApplyCb f s).2 = s ∧
      (mapGet f s.applyCbMap = none →
        (GetApplyCb f (runCalls post (RegisterApplyCb f acb s).2)).1 = acb) ∧
      ((GetApplyCb f s).1 = none ↔
        mapGet f s.applyCbMap = none ∨ mapGet f s.applyCbMap = some none) ∧
      (mapGet f s.applyCbMap = none ↔ (RegisterApplyCb f acb s).1 = none)) ∧
    ((GetInsertBlockCb n s).2 = s ∧
      (mapGet n s.insertBlockCbMap = none →
        (GetInsertBlockCb n (runCalls post (RegisterInsertBlockCb n bcb s).2)).1 = bcb) ∧
      ((GetInsertBlockCb n s).1 = none ↔
        mapGet n s.insertBlockCbMap = none ∨ mapGet n s.insertBlockCbMap = some none) ∧
      (mapGet n s.insertBlockCbMap = none ↔ (RegisterInsertBlockCb n bcb s).1 = none)) := by
  refine ⟨⟨?_, ?_, ?_, ?_⟩, ⟨?_, ?_, ?_, ?_⟩, ⟨?_, ?_, ?_, ?_⟩⟩
  · rw [GetValidateCb_eq]
  · intro hf
    have hb : mapGet f (RegisterValidateCb f vcb s).2.validateCbMap = some vcb := by
      rw [RegisterValidateCb_unbound f vcb s hf]
      exact mapGet_mapAssign_self f vcb _
    rw [GetValidateCb_eq, (runCalls_keeps post _).1 f vcb hb]
    rfl
  · rw [GetValidateCb_eq]
    cases hg : mapGet f s.validateCbMap with
    | none => simp
    | some v => simp
  · cases hg : mapGet f s.validateCbMap with
    | none => simp [RegisterValidateCb_unbound f vcb s hg]
    | some v => simpa using (RegisterValidateCb_bound f vcb s (by simp [hg])).1
  · rw [GetApplyCb_eq]
  · intro hf
    have hb : mapGet f (RegisterApplyCb f acb s).2.applyCbMap = some acb := by
      rw [RegisterApplyCb_unbound f acb s hf]
      exact mapGet_mapAssign_self f acb _
    rw [GetApplyCb_eq, (runCalls_keeps post _).2.1 f acb hb]
    rfl
  · rw [GetApplyCb_eq]
    cases hg : mapGet f s.applyCbMap with
    | none => simp
    | some v => simp
  · cases hg : mapGet f s.applyCbMap with
    | none => simp [RegisterApplyCb_unbound f acb s hg]
    | some v => simpa using (RegisterApplyCb_bound f acb s (by simp [hg])).1
  · rw [GetInsertBlockCb_eq]
  · intro hf
    have hb : mapGet n (RegisterInsertBlockCb n bcb s).2.insertBlockCbMap = some bcb := by
      rw [RegisterInsertBlockCb_unbound n bcb s hf]
      exact mapGet_mapAssign_self n bcb _
    rw [GetInsertBlockCb_eq, (runCalls_keeps post _).2.2 n bcb hb]
    rfl
  · rw [GetInsertBlockCb_eq]
    cases hg : mapGet n s.insertBlockCbMap with
    | none => simp
    | some v => simp
  · cases hg : mapGet n s.insertBlockCbMap with
    | none => simp [RegisterInsertBlockCb_unbound n bcb s hg]
    | some v => simpa using (RegisterInsertBlockCb_bound n bcb s (by simp [hg])).1

end RegistryProps

/-- C1, at the empty tables: registering kind `7` succeeds and binds it, and a second
registration of kind `7` is refused and changes nothing. -/
theorem register_contract_witness :
    mapGet 7 (RegisterValidateCb 7 (some "first")
      (Registry.empty : Registry Nat String String String)).2.validateCbMap
        = some (some "first") ∧
    (RegisterValidateCb 7 (some "second")
      (RegisterValidateCb 7 (some "first")
        (Registry.empty : Registry Nat String String String)).2).2
      = (RegisterValidateCb 7 (some "first")
        (Registry.empty : Registry Nat String String String)).2 :=
  ⟨((register_contract (Registry.empty : Registry Nat String String String) 7 "hook"
      (some "first") none none).1.2.2.1 rfl).1,
    (register_contract (RegisterValidateCb 7 (some "first")
      (Registry.empty : Registry Nat String String String)).2 7 "hook"
      (some "second") none none).1.2.1 (by decide)⟩

/-- C2 fails as stated: after the successful registration of a nil validate handler for
kind `0`, the lookup of kind `0` reports nil although kind `0` is bound and a further
registration of it is refused. -/
theorem lookup_nil_counterexample :
    (RegisterValidateCb 0 none (Registry.empty : Registry Nat Unit Unit Unit)).1 = none ∧
    (GetValidateCb 0
      (RegisterValidateCb 0 none (Registry.empty : Registry Nat Unit Unit Unit)).2).1 = none ∧
    (mapGet 0 (RegisterValidateCb 0 none
      (Registry.empty : Registry Nat Unit Unit Unit)).2.validateCbMap).isSome = true ∧
    (RegisterValidateCb 0 (some ())
      (RegisterValidateCb 0 none (Registry.empty : Registry Nat Unit Unit Unit)).2).1 ≠ none := by
  decide

/-- C2 (as amended), at the empty tables: a hook registered under "epoch" is the one the
lookup returns after two further registrations, one of them of the same name. -/
theorem lookup_contract_witness :
    (GetInsertBlockCb "epoch"
      (runCalls [.insertBlock "epoch" (some "late"), .validate 3 none]
        (RegisterInsertBlockCb "epoch" (some "first")
          (Registry.empty : Registry Nat String String String)).2)).1 = some "first" :=
  (lookup_contract (Registry.empty : Registry Nat String String String)
    [.insertBlock "epoch" (some "late"), .validate 3 none] 0 "epoch" none none
    (some "first")).2.2.2.1 rfl

/-! ### tx_callback.go: the hook table -/

section HookTable

variable {K H : Type} [DecidableEq K]

theorem key_ne_of_mapGet_none (k : K) (m : GoMap K H) (h : mapGet k m = none) :
    ∀ e ∈ m, e.1 ≠ k := by
  induction m with
  | nil => simp
  | cons e rest ih =>
    obtain ⟨a, b⟩ := e
    by_cases ha : k = a
    · simp [mapGet, ha] at h
    · have hr : mapGet k rest = none := by simpa [mapGet, ha] using h
      intro e he
      rcases List.mem_cons.1 he with he | he
      · subst he
        exact fun e => ha e.symm
      · exact ih hr e he

theorem filter_of_mapGet_none (k : K) (m : GoMap K H) (h : mapGet k m = none) :
    m.filter (fun e => decide (e.1 ≠ k)) = m := by
  rw [List.filter_eq_self]
  intro e he
  simpa using key_ne_of_mapGet_none k m h e he

theorem mapGet_eq_some_iff_mem (k : K) (v : H) (m : GoMap K H)
    (hnd : (m.map Prod.fst).Nodup) : mapGet k m = some v ↔ (k, v) ∈ m := by
  induction m with
  | nil => simp [mapGet]
  | cons e rest ih =>
    obtain ⟨a, b⟩ := e
    have hnd' : a ∉ rest.map Prod.fst ∧ (rest.map Prod.fst).Nodup := by
      simpa [List.nodup_cons] using hnd
    by_cases ha : k = a
    · subst ha
      constructor
      · intro h
        have : b = v := by simpa [mapGet] using h
        simp [this]
      · intro h
        rcases List.mem_cons.1 h with h | h
        · have : v = b := by simpa using h
          simp [mapGet, this]
        · exact absurd (List.mem_map_of_mem Prod.fst h) hnd'.1
    · have hne : (k, v) ≠ (a, b) := fun e => ha (by simpa using congrArg Prod.fst e)
      simp [mapGet, ha, ih hnd'.2, hne]

theorem mapGet_perm (k : K) (m₁ m₂ : GoMap K H) (hp : m₁.Perm m₂)
    (hnd : (m₁.map Prod.fst).Nodup) : mapGet k m₁ = mapGet k m₂ := by
  have hnd₂ : (m₂.map Prod.fst).Nodup := (hp.map Prod.fst).nodup_iff.1 hnd
  apply Option.ext
  intro v
  simp only [Option.mem_def]
  rw [mapGet_eq_some_iff_mem k v m₁ hnd, mapGet_eq_some_iff_mem k v m₂ hnd₂]
  exact hp.mem_iff

end HookTable

section HookTableRegistry

variable {FT V A B : Type} [DecidableEq FT]

theorem runCalls_registerHooks (hooks : List (String × Option B)) (s : Registry FT V A B)
    (hnd : (hooks.map Prod.fst).Nodup)
    (hfresh : ∀ e ∈ hooks, mapGet e.1 s.insertBlockCbMap = none) :
    (runCalls (registerHooks hooks) s).insertBlockCbMap
      = hooks.reverse ++ s.insertBlockCbMap := by
  induction hooks generalizing s with
  | nil => rfl
  | cons e rest ih =>
    obtain ⟨n, cb⟩ := e
    have hnd' : n ∉ rest.map Prod.fst ∧ (rest.map Prod.fst).Nodup := by
      simpa [List.nodup_cons] using hnd
    have hn : mapGet n s.insertBlockCbMap = none := hfresh (n, cb) (List.mem_cons_self _ _)
    have hstep : (RegisterInsertBlockCb n cb s).2.insertBlockCbMap
        = (n, cb) :: s.insertBlockCbMap := by
      rw [RegisterInsertBlockCb_unbound n cb s hn]
      show mapAssign n cb s.insertBlockCbMap = (n, cb) :: s.insertBlockCbMap
      unfold mapAssign
      rw [filter_of_mapGet_none n s.insertBlockCbMap hn]
    have hfresh' : ∀ e ∈ rest,
        mapGet e.1 (RegisterInsertBlockCb n cb s).2.insertBlockCbMap = none := by
      intro e he
      have hne : e.1 ≠ n := by
        intro heq
        exact hnd'.1 (heq ▸ List.mem_map_of_mem Prod.fst he)
      rw [hstep]
      simpa [mapGet, hne] using hfresh e (List.mem_cons_of_mem _ he)
    have := ih (RegisterInsertBlockCb n cb s).2 hnd'.2 hfresh'
    simpa [registerHooks, runCalls, RegisterCall.run, hstep] using this

/-- C6 (as amended). `GetInsertBlockCbMap` hands out the hook table itself, a map with no
order of its own.  For hooks with pairwise distinct names, registered in any order: the
table handed out binds each registered name to its hook and no other name; it holds the
same binding for every name whichever order the hooks were registered in; the enumerations
that `range` may produce over it are exactly the arrangements of the registered hooks, the
same for both orders of registration; so with two or more hooks two different enumerations
are possible, and no order is fixed. -/
theorem hook_table_order_independent (hooks₁ hooks₂ : List (String × Option B))
    (hperm : hooks₁.Perm hooks₂) (hnd : (hooks₁.map Prod.fst).Nodup) :
    GetInsertBlockCbMap (runCalls (registerHooks hooks₁) (Registry.empty : Registry FT V A B))
      = (runCalls (registerHooks hooks₁)
          (Registry.empty : Registry FT V A B)).insertBlockCbMap ∧
    (∀ n cb, mapGet n (GetInsertBlockCbMap
        (runCalls (registerHooks hooks₁) (Registry.empty : Registry FT V A B))) = some cb
      ↔ (n, cb) ∈ hooks₁) ∧
    (∀ n, mapGet n (GetInsertBlockCbMap
        (runCalls (registerHooks hooks₁) (Registry.empty : Registry FT V A B)))
      = mapGet n (GetInsertBlockCbMap
        (runCalls (registerHooks hooks₂) (Registry.empty : Registry FT V A B)))) ∧
    (∀ visit, rangeOrder (GetInsertBlockCbMap
        (runCalls (registerHooks hooks₁) (Registry.empty : Registry FT V A B))) visit
      ↔ visit.Perm hooks₁) ∧
    (∀ visit, rangeOrder (GetInsertBlockCbMap
        (runCalls (registerHooks hooks₁) (Registry.empty : Registry FT V A B))) visit
      ↔ rangeOrder (GetInsertBlockCbMap
        (runCalls (registerHooks hooks₂) (Registry.empty : Registry FT V A B))) visit) ∧
    (2 ≤ hooks₁.length →
      ∃ v₁ v₂,
        rangeOrder (GetInsertBlockCbMap
          (runCalls (registerHooks hooks₁) (Registry.empty : Registry FT V A B))) v₁ ∧
        rangeOrder (GetInsertBlockCbMap
          (runCalls (registerHooks hooks₁) (Registry.empty : Registry FT V A B))) v₂ ∧
        v₁ ≠ v₂) := by
  have hnd₂ : (hooks₂.map Prod.fst).Nodup := (hperm.map Prod.fst).nodup_iff.1 hnd
  have e₁ := runCalls_registerHooks hooks₁ (Registry.empty : Registry FT V A B) hnd
    (fun _ _ => rfl)
  have e₂ := runCalls_registerHooks hooks₂ (Registry.empty : Registry FT V A B) hnd₂
    (fun _ _ => rfl)
  have hr₁ : (hooks₁.reverse ++ ([] : GoMap String (Option B))).Perm hooks₁ := by
    simp
  have hp : (hooks₁.reverse ++ ([] : GoMap String (Option B))).Perm
      (hooks₂.reverse ++ ([] : GoMap String (Option B))) := by
    simpa using ((List.reverse_perm hooks₁).trans hperm).trans (List.reverse_perm hooks₂).symm
  have hndr : ((hooks₁.reverse ++ ([] : GoMap String (Option B))).map Prod.fst).Nodup := by
    simpa [List.map_reverse] using hnd
  have hrange : ∀ visit, rangeOrder (hooks₁.reverse ++ ([] : GoMap String (Option B))) visit
      ↔ visit.Perm hooks₁ := by
    intro visit
    unfold rangeOrder
    exact ⟨fun h => h.trans hr₁, fun h => h.trans hr₁.symm⟩
  refine ⟨rfl, ?_⟩
  unfold GetInsertBlockCbMap
  rw [e₁, e₂]
  refine ⟨fun n cb => ?_, fun n => mapGet_perm n _ _ hp hndr, hrange, fun visit => ?_,
    fun hlen => ?_⟩
  · exact (mapGet_eq_some_iff_mem n cb _ hndr).trans hr₁.mem_iff
  · unfold rangeOrder
    exact ⟨fun h => h.trans hp, fun h => h.trans hp.symm⟩
  · match hooks₁, hnd, hrange, hlen with
    | [], _, _, hlen => simp at hlen
    | [_], _, _, hlen => simp at hlen
    | a :: b :: r, hnd, hrange, _ =>
      have hab : a ≠ b := by
        intro heq
        subst heq
        simp at hnd
      refine ⟨a :: b :: r, b :: a :: r, (hrange _).2 (List.Perm.refl _),
        (hrange _).2 (List.Perm.swap _ _ _), ?_⟩
      intro heq
      exact hab (List.cons.inj heq).1

end HookTableRegistry

/-- C6 fails as stated: with the hooks "a" and "b" registered, the table that
`GetInsertBlockCbMap` hands out permits the enumeration "a", "b" as well as "b", "a". -/
theorem hook_order_counterexample :
    rangeOrder (GetInsertBlockCbMap (runCalls (registerHooks [("a", some 1), ("b", some 2)])
        (Registry.empty : Registry Nat Unit Unit Nat)))
      [("a", some 1), ("b", some 2)] ∧
    rangeOrder (GetInsertBlockCbMap (runCalls (registerHooks [("a", some 1), ("b", some 2)])
        (Registry.empty : Registry Nat Unit Unit Nat)))
      [("b", some 2), ("a", some 1)] ∧
    ([("a", some 1), ("b", some 2)] : List (String × Option Nat))
      ≠ [("b", some 2), ("a", some 1)] := by
  refine ⟨?_, ?_, by decide⟩
  · exact List.Perm.swap _ _ _
  · exact List.Perm.refl _

/-- C6 (as amended), for the hooks "a" and "b" registered as "b", "a": the table handed
out binds "a" to its hook, and it can be enumerated in two different orders. -/
theorem hook_table_order_independent_witness :
    mapGet "a" (GetInsertBlockCbMap (runCalls (registerHooks [("b", some 2), ("a", some 1)])
        (Registry.empty : Registry Nat Unit Unit Nat))) = some (some 1) ∧
    ∃ v₁ v₂,
      rangeOrder (GetInsertBlockCbMap (runCalls (registerHooks [("b", some 2), ("a", some 1)])
        (Registry.empty : Registry Nat Unit Unit Nat))) v₁ ∧
      rangeOrder (GetInsertBlockCbMap (runCalls (registerHooks [("b", some 2), ("a", some 1)])
        (Registry.empty : Registry Nat Unit Unit Nat))) v₂ ∧
      v₁ ≠ v₂ :=
  ⟨((hook_table_order_independent [("b", some 2), ("a", some 1)]
      [("a", some 1), ("b", some 2)] (List.Perm.swap _ _ _) (by decide)).2.1 "a" (some 1)).2
      (by decide),
    (hook_table_order_independent [("b", some 2), ("a", some 1)]
      [("a", some 1), ("b", some 2)] (List.Perm.swap _ _ _) (by decide)).2.2.2.2.2
      (by decide)⟩

/-! ### priv_key.go: encoding -/

theorem type_bytes_distinct :
    TypeEd25519 ≠ TypeSecp256k1 ∧ TypeEd25519 ≠ TypeEthereum ∧ TypeEd25519 ≠ TypeBls ∧
    TypeSecp256k1 ≠ TypeEthereum ∧ TypeSecp256k1 ≠ TypeBls ∧ TypeEthereum ≠ TypeBls := by
  decide

theorem tagged_schemes_bytes (w : WireCodec) (ed : PrivKeyEd25519) (secp : PrivKeySecp256k1)
    (eth : EthereumPrivKey) :
    ed.Bytes w = TypeEd25519 :: ed.data ∧
    secp.Bytes w = TypeSecp256k1 :: secp.data ∧
    eth.Bytes w = TypeEthereum :: w.writeByteSlice eth.data :=
  ⟨rfl, rfl, rfl⟩

theorem tagged_schemes_roundtrip (w : WireCodec)
    (hw : ∀ d, ∃ rest, w.readByteSlice (w.writeByteSlice d) = some (d, rest))
    (ed : PrivKeyEd25519) (secp : PrivKeySecp256k1) (eth : EthereumPrivKey) :
    PrivKeyFromBytes w (ed.Bytes w) = .ok (.concrete (.ed25519 ed)) ∧
    PrivKeyFromBytes w (secp.Bytes w) = .ok (.concrete (.secp256k1 secp)) ∧
    PrivKeyFromBytes w (eth.Bytes w) = .ok (.concrete (.ethereum eth)) := by
  refine ⟨?_, ?_, ?_⟩
  · obtain ⟨d, hd⟩ := ed
    have ht : List.take 64 d = d := List.take_of_length_le (by omega)
    simp [PrivKeyFromBytes, PrivKeyEd25519.Bytes, wireBinaryBytes, writeKeyMaterial,
      ConcreteKey.typeByte, wireReadBinaryBytes, TypeEd25519, hd, ht]
  · obtain ⟨d, hd⟩ := secp
    have ht : List.take 32 d = d := List.take_of_length_le (by omega)
    simp [PrivKeyFromBytes, PrivKeySecp256k1.Bytes, wireBinaryBytes, writeKeyMaterial,
      ConcreteKey.typeByte, wireReadBinaryBytes, TypeEd25519, TypeSecp256k1, hd, ht]
  · obtain ⟨d⟩ := eth
    obtain ⟨rest, hr⟩ := hw d
    simp [PrivKeyFromBytes, EthereumPrivKey.Bytes, wireBinaryBytes, writeKeyMaterial,
      ConcreteKey.typeByte, wireReadBinaryBytes, TypeEd25519, TypeSecp256k1, TypeEthereum, hr]

/-- C3, evaluated at the BLS key of 32 bytes `0x07`: `Bytes` returns the key bytes as
they are, so the encoded form starts with `0x07`, not with the BLS type byte `0x04`. -/
theorem bls_bytes_untagged :
    BLSPrivKey.Bytes ⟨List.replicate 32 7⟩ = List.replicate 32 7 ∧
    (BLSPrivKey.Bytes ⟨List.replicate 32 7⟩).head? = some 0x07 ∧
    (BLSPrivKey.Bytes ⟨List.replicate 32 7⟩).head? ≠ some TypeBls := by
  decide

/-- C4, evaluated at the BLS key of 32 bytes `0x07`: decoding its `Bytes` fails, since the
first key byte is read as a type byte and `0x07` is not a registered one. -/
theorem bls_bytes_not_decodable (w : WireCodec) :
    PrivKeyFromBytes w (BLSPrivKey.Bytes ⟨List.replicate 32 7⟩)
      = .error "unknown type byte" := by
  rfl

/-! ### priv_key.go: equality -/

theorem bytesEqual_iff (a b : List UInt8) : bytesEqual a b = true ↔ a = b := by
  simp [bytesEqual]

theorem ConcreteKey.Equals_concrete_iff (a b : ConcreteKey) :
    a.Equals (.concrete b) = true ↔ a.scheme = b.scheme ∧ a.keyBytes = b.keyBytes := by
  cases a <;> cases b <;>
    simp [ConcreteKey.Equals, PrivKeyEd25519.Equals, PrivKeySecp256k1.Equals,
      EthereumPrivKey.Equals, BLSPrivKey.Equals, ConcreteKey.scheme, ConcreteKey.keyBytes,
      bytesEqual_iff]

theorem ConcreteKey.Equals_wrapped (a : ConcreteKey) (inner : PrivKey) :
    a.Equals (.privKeyS inner) = false := by
  cases a <;> rfl

/-- C5. For concrete keys `a` and `b` of the four schemes, `a.Equals(b)` is true exactly
when both are of the same scheme and hold the same key bytes; every key equals itself;
keys of different schemes are never equal, whatever their bytes. -/
theorem equals_iff_same_scheme_and_bytes (a b : ConcreteKey) :
    ((PrivKey.concrete a).Equals (.concrete b) = some true ↔
      a.scheme = b.scheme ∧ a.keyBytes = b.keyBytes) ∧
    (PrivKey.concrete a).Equals (.concrete a) = some true ∧
    (a.scheme ≠ b.scheme → (PrivKey.concrete a).Equals (.concrete b) = some false) := by
  have hiff := ConcreteKey.Equals_concrete_iff a b
  refine ⟨?_, ?_, ?_⟩
  · simpa [PrivKey.Equals] using hiff
  · simpa [PrivKey.Equals] using (ConcreteKey.Equals_concrete_iff a a).2 ⟨rfl, rfl⟩
  · intro hne
    have : a.Equals (.concrete b) ≠ true := fun h => hne (hiff.1 h).1
    simpa [PrivKey.Equals] using this

/-- C5, at an `EthereumPrivKey` and a `BLSPrivKey` that hold the same two bytes: they are
not equal. -/
theorem equals_iff_same_scheme_and_bytes_witness :
    (PrivKey.concrete (.ethereum ⟨[1, 2]⟩)).Equals (.concrete (.bls ⟨[1, 2]⟩)) = some false :=
  (equals_iff_same_scheme_and_bytes (.ethereum ⟨[1, 2]⟩) (.bls ⟨[1, 2]⟩)).2.2 (by decide)

/-- C10 fails as stated: for the BLS key `k` of bytes `1, 2`, `k.Equals(WrapPrivKey(k))`
is false while `WrapPrivKey(k).Equals(k)` is true. -/
theorem equals_wrapped_counterexample :
    (PrivKey.concrete (.bls ⟨[1, 2]⟩)).Equals (WrapPrivKey (.concrete (.bls ⟨[1, 2]⟩)))
      = some false ∧
    (WrapPrivKey (.concrete (.bls ⟨[1, 2]⟩))).Equals (.concrete (.bls ⟨[1, 2]⟩))
      = some true := by
  decide

/-- C10 (as amended). `Equals` is symmetric over the concrete keys of the four schemes;
with a wrapped key it is not: for every concrete key `k`, `WrapPrivKey(k).Equals(k)` is
true, as `PrivKeyS` passes the call to the key it holds, and `k.Equals(WrapPrivKey(k))`
is false, as `k` compares only with keys of its own concrete type. -/
theorem equals_symmetric_on_concrete (a b : ConcreteKey) :
    (PrivKey.concrete a).Equals (.concrete b) = (PrivKey.concrete b).Equals (.concrete a) ∧
    (WrapPrivKey (.concrete a)).Equals (.concrete a) = some true ∧
    (PrivKey.concrete a).Equals (WrapPrivKey (.concrete a)) = some false := by
  refine ⟨?_, ?_, ?_⟩
  · have h₁ := ConcreteKey.Equals_concrete_iff a b
    have h₂ := ConcreteKey.Equals_concrete_iff b a
    have : a.Equals (.concrete b) = b.Equals (.concrete a) := by
      rw [Bool.eq_iff_iff, h₁, h₂]
      exact ⟨fun h => ⟨h.1.symm, h.2.symm⟩, fun h => ⟨h.1.symm, h.2.symm⟩⟩
    simp [PrivKey.Equals, this]
  · simpa [PrivKey.Equals, WrapPrivKey] using
      (ConcreteKey.Equals_concrete_iff a a).2 ⟨rfl, rfl⟩
  · simp [PrivKey.Equals, WrapPrivKey, ConcreteKey.Equals_wrapped]

/-! ### init.go: the default reward scheme -/

theorem allocatedAfter_genDoc_le (n : Nat) (h : n ≤ 9) :
    genDoc.RewardScheme.PreAllocated + allocatedAfter genDoc.RewardScheme n
      ≤ genDoc.RewardScheme.TTotalReward := by
  interval_cases n <;> decide

theorem yearPool_genDoc_zero (n : Nat) (h : 10 ≤ n) : yearPool genDoc.RewardScheme n = 0 := by
  have h1 : ¬ n * 572730000000000000000000 < 5727300000000000000000000 := by omega
  simp [yearPool, genDoc, h1]

theorem allocatedAfter_genDoc_ge (n : Nat) (h : 10 ≤ n) :
    allocatedAfter genDoc.RewardScheme n = 31500150000000000000000000 := by
  induction n with
  | zero => omega
  | succ m ih =>
    by_cases hm : 10 ≤ m
    · rw [allocatedAfter, ih hm, yearPool_genDoc_zero m hm]
    · have : m = 9 := by omega
      subst this
      decide

/-- C7, evaluated at ten years: the pools of the years 0 to 9 of the default scheme add up
to 31500150000000000000000000, which together with preAllocated is
210000150000000000000000000, above totalReward by 150000000000000000000. -/
theorem reward_overshoot_at_ten_years :
    allocatedAfter genDoc.RewardScheme 10 = 31500150000000000000000000 ∧
    genDoc.RewardScheme.PreAllocated + allocatedAfter genDoc.RewardScheme 10
      = 210000150000000000000000000 ∧
    genDoc.RewardScheme.TTotalReward
      < genDoc.RewardScheme.PreAllocated + allocatedAfter genDoc.RewardScheme 10 := by
  decide

/-- C8, evaluated on the default genesis document: allocated is within totalReward, but
rewardPerBlock times the epoch length of 1296000 blocks is
2160000000000000000000000432000, above totalReward and so above any pool within it. -/
theorem default_epoch_reward_exceeds_total :
    genDoc.RewardScheme.Allocated ≤ genDoc.RewardScheme.TTotalReward ∧
    genDoc.CurrentEpoch.lengthInBlocks = 1296000 ∧
    genDoc.CurrentEpoch.RewardPerBlock * genDoc.CurrentEpoch.lengthInBlocks
      = 2160000000000000000000000432000 ∧
    genDoc.RewardScheme.TTotalReward
      < genDoc.CurrentEpoch.RewardPerBlock * genDoc.CurrentEpoch.lengthInBlocks ∧
    genDoc.RewardScheme.Allocated
      < genDoc.CurrentEpoch.RewardPerBlock * genDoc.CurrentEpoch.lengthInBlocks := by
  decide

/-! ### server.go: the listen address -/

theorem stringsIndex_some_spec (sep : GoString) (s : GoString) (m : Nat)
    (h : stringsIndex sep s = some m) :
    sep <+: s.drop m ∧ ∀ j, j < m → ¬ sep <+: s.drop j := by
  induction s generalizing m with
  | nil =>
    by_cases hp : sep.isPrefixOf [] = true
    · have hm : m = 0 := by simpa [stringsIndex, hp] using h.symm
      subst hm
      exact ⟨List.isPrefixOf_iff_prefix.1 hp, fun j hj => absurd hj (Nat.not_lt_zero j)⟩
    · simp [stringsIndex, hp] at h
  | cons c rest ih =>
    by_cases hp : sep.isPrefixOf (c :: rest) = true
    · have hm : m = 0 := by simpa [stringsIndex, hp] using h.symm
      subst hm
      exact ⟨List.isPrefixOf_iff_prefix.1 hp, fun j hj => absurd hj (Nat.not_lt_zero j)⟩
    · have h' : (stringsIndex sep rest).map (fun i => i + 1) = some m := by
        simpa [stringsIndex, hp] using h
      cases hr : stringsIndex sep rest with
      | none => simp [hr] at h'
      | some i =>
        have hm : m = i + 1 := by simpa [hr] using h'.symm
        subst hm
        obtain ⟨h1, h2⟩ := ih i hr
        refine ⟨by simpa using h1, fun j hj => ?_⟩
        cases j with
        | zero =>
          intro hpre
          exact hp (List.isPrefixOf_iff_prefix.2 (by simpa using hpre))
        | succ j => simpa using h2 j (by omega)

theorem stringsIndex_none_spec (sep : GoString) (s : GoString)
    (h : stringsIndex sep s = none) : ∀ j, ¬ sep <+: s.drop j := by
  induction s with
  | nil =>
    intro j hpre
    have hp : sep.isPrefixOf [] = true := List.isPrefixOf_iff_prefix.2 (by simpa using hpre)
    simp [stringsIndex, hp] at h
  | cons c rest ih =>
    by_cases hp : sep.isPrefixOf (c :: rest) = true
    · simp [stringsIndex, hp] at h
    · have hr : stringsIndex sep rest = none := by simpa [stringsIndex, hp] using h
      intro j
      cases j with
      | zero =>
        intro hpre
        exact hp (List.isPrefixOf_iff_prefix.2 (by simpa using hpre))
      | succ j => simpa using ih hr j

theorem prefix_drop_of_split (sep s p a : GoString) (h : p ++ sep ++ a = s) :
    sep <+: s.drop p.length := by
  subst h
  simp [List.append_assoc]

theorem ProtocolAndAddress_eq (s : GoString) :
    ProtocolAndAddress s =
      match stringsIndex schemeSep s with
      | none => (tcpLit, s)
      | some m => (s.take m, s.drop (m + schemeSep.length)) := by
  unfold ProtocolAndAddress stringsSplitN genSplit
  cases stringsIndex schemeSep s <;> simp [genSplit]

/-- C9. A listen address without "://" is returned whole, with protocol "tcp"; one that
contains "://" is cut at the first occurrence: protocol, "://" and address put together
give the input back, no occurrence of "://" starts before the cut, and the protocol
contains no "://". -/
theorem ProtocolAndAddress_contract (s : GoString) :
    (¬ schemeSep <:+: s → ProtocolAndAddress s = (tcpLit, s)) ∧
    (schemeSep <:+: s →
      (ProtocolAndAddress s).1 ++ schemeSep ++ (ProtocolAndAddress s).2 = s ∧
      (∀ p a, p ++ schemeSep ++ a = s → (ProtocolAndAddress s).1.length ≤ p.length) ∧
      ¬ schemeSep <:+: (ProtocolAndAddress s).1) := by
  rw [ProtocolAndAddress_eq]
  cases hi : stringsIndex schemeSep s with
  | none =>
    refine ⟨fun _ => rfl, fun hin => ?_⟩
    obtain ⟨p, a, hpa⟩ := hin
    exact absurd (prefix_drop_of_split schemeSep s p a hpa) (stringsIndex_none_spec _ _ hi _)
  | some m =>
    dsimp only
    obtain ⟨hpre, hmin⟩ := stringsIndex_some_spec schemeSep s m hi
    have hcut : s.take m ++ schemeSep ++ s.drop (m + schemeSep.length) = s := by
      obtain ⟨t, ht⟩ := hpre
      have hd : s.drop (m + schemeSep.length) = t := by
        rw [← List.drop_drop, ← ht]
        simp
      rw [hd, List.append_assoc, ht, List.take_append_drop]
    have hfirst : ∀ p a, p ++ schemeSep ++ a = s → m ≤ p.length := by
      intro p a hpa
      by_contra hlt
      exact hmin p.length (by omega) (prefix_drop_of_split schemeSep s p a hpa)
    refine ⟨fun hno => ?_, fun _ => ⟨hcut, ?_, ?_⟩⟩
    · exact absurd ⟨s.take m, s.drop (m + schemeSep.length), hcut⟩ hno
    · intro p a hpa
      have := hfirst p a hpa
      simp only [List.length_take]
      omega
    · rintro ⟨x, y, hxy⟩
      have hs : x ++ schemeSep ++ (y ++ schemeSep ++ s.drop (m + schemeSep.length)) = s := by
        have hre : x ++ schemeSep ++ (y ++ schemeSep ++ s.drop (m + schemeSep.length))
            = (x ++ schemeSep ++ y) ++ schemeSep ++ s.drop (m + schemeSep.length) := by
          simp [List.append_assoc]
        rw [hre, hxy, hcut]
      have h1 := hfirst x _ hs
      have h2 : (x ++ schemeSep ++ y).length = (s.take m).length := by rw [hxy]
      simp [List.length_take, schemeSep] at h2
      omega

/-- C9, at the addresses "a:://b" and "a:": the first is cut into "a:" and "b", the second
is kept whole. -/
theorem ProtocolAndAddress_contract_witness :
    ProtocolAndAddress [0x61, 0x3a] = (tcpLit, [0x61, 0x3a]) ∧
    (ProtocolAndAddress [0x61, 0x3a, 0x3a, 0x2f, 0x2f, 0x62]).1 ++ schemeSep
      ++ (ProtocolAndAddress [0x61, 0x3a, 0x3a, 0x2f, 0x2f, 0x62]).2
      = [0x61, 0x3a, 0x3a, 0x2f, 0x2f, 0x62] :=
  ⟨(ProtocolAndAddress_contract [0x61, 0x3a]).1 (by decide),
    ((ProtocolAndAddress_contract [0x61, 0x3a, 0x3a, 0x2f, 0x2f, 0x62]).2 (by decide)).1⟩

/-! ### priv_key.go: JSON -/

theorem goCopy_nil_dst (src : List UInt8) : goCopy [] src = [] := by
  simp [goCopy]

theorem goCopy_same_length (dst src : List UInt8) (h : src.length = dst.length) :
    goCopy dst src = src := by
  have h1 : src.take dst.length = src := List.take_of_length_le (by omega)
  have h2 : dst.drop src.length = [] := List.drop_of_length_le (by omega)
  simp [goCopy, h1, h2]

theorem fixed_size_json_roundtrip (e : ByteEncoder)
    (hinv : ∀ d, (e.Marshal d).2 = none ∧ e.Unmarshal [] (e.Marshal d).1 = (d, none))
    (ed : PrivKeyEd25519) (secp : PrivKeySecp256k1) :
    (ed.MarshalJSON e).2 = none ∧
    PrivKeyEd25519.UnmarshalJSON e PrivKeyEd25519.zero (ed.MarshalJSON e).1 = (ed, none) ∧
    (secp.MarshalJSON e).2 = none ∧
    PrivKeySecp256k1.UnmarshalJSON e PrivKeySecp256k1.zero (secp.MarshalJSON e).1
      = (secp, none) := by
  refine ⟨(hinv ed.data).1, ?_, (hinv secp.data).1, ?_⟩
  · obtain ⟨d, hd⟩ := ed
    have hc : goCopy (List.replicate 64 0) d = d := goCopy_same_length _ d (by simp [hd])
    simp only [PrivKeyEd25519.UnmarshalJSON, PrivKeyEd25519.MarshalJSON, PrivKeyEd25519.zero,
      (hinv d).2, Prod.mk.injEq, PrivKeyEd25519.mk.injEq, and_true]
    exact hc
  · obtain ⟨d, hd⟩ := secp
    have hc : goCopy (List.replicate 32 0) d = d := goCopy_same_length _ d (by simp [hd])
    simp only [PrivKeySecp256k1.UnmarshalJSON, PrivKeySecp256k1.MarshalJSON,
      PrivKeySecp256k1.zero, (hinv d).2, Prod.mk.injEq, PrivKeySecp256k1.mk.injEq, and_true]
    exact hc

theorem fixed_size_json_roundtrip_plain (ed : PrivKeyEd25519) :
    PrivKeyEd25519.UnmarshalJSON plainEncoder PrivKeyEd25519.zero
      (ed.MarshalJSON plainEncoder).1 = (ed, none) :=
  (fixed_size_json_roundtrip plainEncoder (fun _ => ⟨rfl, rfl⟩) ed PrivKeySecp256k1.zero).2.1

/-- C11, evaluated at the slice-typed keys: whatever the encoder and the JSON input,
`UnmarshalJSON` on a fresh `EthereumPrivKey` or `BLSPrivKey` leaves the key empty, since
`copy` into the nil slice copies nothing; so for the `EthereumPrivKey` of bytes `1, 2` the
call on its own `MarshalJSON` output returns no error and a key without bytes. -/
theorem slice_key_unmarshal_leaves_fresh_key_empty (e : ByteEncoder) (enc : List UInt8) :
    (EthereumPrivKey.UnmarshalJSON e EthereumPrivKey.zero enc).1 = EthereumPrivKey.zero ∧
    (BLSPrivKey.UnmarshalJSON e BLSPrivKey.zero enc).1 = BLSPrivKey.zero ∧
    EthereumPrivKey.UnmarshalJSON plainEncoder EthereumPrivKey.zero
      (EthereumPrivKey.MarshalJSON plainEncoder ⟨[1, 2]⟩).1 = (⟨[]⟩, none) ∧
    (EthereumPrivKey.UnmarshalJSON plainEncoder EthereumPrivKey.zero
      (EthereumPrivKey.MarshalJSON plainEncoder ⟨[1, 2]⟩).1).1.data ≠ [1, 2] := by
  refine ⟨?_, ?_, by decide, by decide⟩
  · simp [EthereumPrivKey.UnmarshalJSON, EthereumPrivKey.zero, goCopy_nil_dst]
  · simp [BLSPrivKey.UnmarshalJSON, BLSPrivKey.zero, goCopy_nil_dst]

/-! ### priv_key.go: signing with an Ethereum key -/

/-- C12 fails as stated: the empty key is rejected by `ToECDSA`, `Sign` returns the nil
signature on it, and `PubKey` panics with the error of `ToECDSA`. -/
theorem pubkey_panics_counterexample :
    lengthCheckedCrypto.ToECDSA [] = .error "invalid length, need 256 bits" ∧
    EthereumPrivKey.Sign lengthCheckedCrypto ⟨[]⟩ [0x68, 0x69] = none ∧
    EthereumPrivKey.PubKey lengthCheckedCrypto ⟨[]⟩
      = .error "invalid length, need 256 bits" := by
  refine ⟨rfl, rfl, rfl⟩

/-- C12 (as amended). `Sign` returns for every key: the nil signature when `ToECDSA`
rejects the key or signing fails, the signature otherwise.  `PubKey` returns the public
key on the keys `ToECDSA` accepts and panics with the error of `ToECDSA` on the keys it
rejects.  So wherever `PubKey` yields no public key, `Sign` returns the nil signature. -/
theorem sign_total_pubkey_panics {Priv : Type} (c : EthCrypto Priv) (k : EthereumPrivKey)
    (msg : List UInt8) :
    (∀ err, c.ToECDSA k.data = .error err →
      k.Sign c msg = none ∧ k.PubKey c = .error err) ∧
    (∀ priv, c.ToECDSA k.data = .ok priv →
      k.PubKey c = .ok (c.FromECDSAPub priv) ∧
      (∀ sig, c.Sign (c.Keccak256 msg) priv = .ok sig → k.Sign c msg = some sig) ∧
      (∀ err, c.Sign (c.Keccak256 msg) priv = .error err → k.Sign c msg = none)) ∧
    ((∃ err, k.PubKey c = .error err) → k.Sign c msg = none) := by
  refine ⟨?_, ?_, ?_⟩
  · intro err h
    simp [EthereumPrivKey.Sign, EthereumPrivKey.PubKey, h]
  · intro priv h
    refine ⟨by simp [EthereumPrivKey.PubKey, h], ?_, ?_⟩
    · intro sig hs
      simp [EthereumPrivKey.Sign, h, hs]
    · intro err hs
      simp [EthereumPrivKey.Sign, h, hs]
  · rintro ⟨err, h⟩
    cases ht : c.ToECDSA k.data with
    | error e => simp [EthereumPrivKey.Sign, ht]
    | ok priv => simp [EthereumPrivKey.PubKey, ht] at h

/-- C12 (as amended), at a key of 32 bytes `0x01` and at the empty key: the first is
signed and has a public key, on the second `Sign` returns nil. -/
theorem sign_total_pubkey_panics_witness :
    EthereumPrivKey.PubKey lengthCheckedCrypto ⟨List.replicate 32 1⟩
      = .ok (List.replicate 32 1) ∧
    EthereumPrivKey.Sign lengthCheckedCrypto ⟨[]⟩ [0x68, 0x69] = none :=
  ⟨((sign_total_pubkey_panics lengthCheckedCrypto ⟨List.replicate 32 1⟩ [0x68, 0x69]).2.1
      (List.replicate 32 1) rfl).1,
    (sign_total_pubkey_panics lengthCheckedCrypto ⟨[]⟩ [0x68, 0x69]).2.2
      ⟨"invalid length, need 256 bits", rfl⟩⟩

/-! ### priv_key.go: wrapping -/

theorem WrapPrivKey_eq_innermost (pk : PrivKey) : WrapPrivKey pk = .privKeyS pk.innermost := by
  induction pk with
  | nil => rfl
  | concrete k => rfl
  | privKeyS inner ih => simpa [WrapPrivKey, PrivKey.innermost] using ih

theorem innermost_not_privKeyS (pk : PrivKey) : pk.innermost.isPrivKeyS = false := by
  induction pk with
  | nil => rfl
  | concrete k => rfl
  | privKeyS inner ih => simpa [PrivKey.innermost] using ih

theorem innermost_of_not_privKeyS (pk : PrivKey) (h : pk.isPrivKeyS = false) :
    pk.innermost = pk := by
  cases pk with
  | nil => rfl
  | concrete k => rfl
  | privKeyS inner => simp [PrivKey.isPrivKeyS] at h

theorem wrapLoop_of_depth_le (fuel : Nat) (pk : PrivKey) (h : pk.depth ≤ fuel) :
    wrapLoop fuel pk = some (WrapPrivKey pk) := by
  induction pk generalizing fuel with
  | nil => cases fuel <;> rfl
  | concrete k => cases fuel <;> rfl
  | privKeyS inner ih =>
    cases fuel with
    | zero => simp [PrivKey.depth] at h
    | succ n =>
      have hd : inner.depth ≤ n := by simpa [PrivKey.depth] using h
      simpa [wrapLoop, WrapPrivKey] using ih n hd

/-- C14. For every `PrivKey` value, nil and unwrapped keys included, the loop of
`WrapPrivKey` ends after as many rounds as there are `PrivKeyS` layers, and `WrapPrivKey`
returns a `PrivKeyS` that holds the innermost key that is not a `PrivKeyS`; wrapping a
second time changes nothing. -/
theorem WrapPrivKey_contract (pk : PrivKey) :
    WrapPrivKey pk = .privKeyS pk.innermost ∧
    pk.innermost.isPrivKeyS = false ∧
    (∀ fuel, pk.depth ≤ fuel → wrapLoop fuel pk = some (WrapPrivKey pk)) ∧
    WrapPrivKey (WrapPrivKey pk) = WrapPrivKey pk := by
  refine ⟨WrapPrivKey_eq_innermost pk, innermost_not_privKeyS pk,
    fun fuel h => wrapLoop_of_depth_le fuel pk h, ?_⟩
  rw [WrapPrivKey_eq_innermost pk, WrapPrivKey_eq_innermost (.privKeyS pk.innermost)]
  simp [PrivKey.innermost,
    innermost_of_not_privKeyS pk.innermost (innermost_not_privKeyS pk)]

/-- C14, at a BLS key under two `PrivKeyS` layers and at the nil key: two rounds of the
loop give the key under one layer, and the nil key is wrapped as it is. -/
theorem WrapPrivKey_contract_witness :
    wrapLoop 2 (.privKeyS (.privKeyS (.concrete (.bls ⟨[1, 2]⟩))))
      = some (.privKeyS (.concrete (.bls ⟨[1, 2]⟩))) ∧
    WrapPrivKey .nil = .privKeyS .nil :=
  ⟨(WrapPrivKey_contract (.privKeyS (.privKeyS (.concrete (.bls ⟨[1, 2]⟩))))).2.2.1 2
      (by decide),
    (WrapPrivKey_contract .nil).1⟩

/-! ### init.go: checkAccount -/

section CheckAccountProps

variable {Addr : Type} [DecidableEq Addr]

theorem checkAccountLoop_no_match (HexToAddress : String → Addr) (String2Big : String → Int)
    (coinbase : Addr) (visit : List (String × AllocAccount))
    (h : ∀ e ∈ visit, HexToAddress e.1 ≠ coinbase) :
    checkAccountLoop HexToAddress String2Big coinbase visit = (-1, false) := by
  induction visit with
  | nil => rfl
  | cons e rest ih =>
    obtain ⟨addr, account⟩ := e
    have hne : ¬ coinbase = HexToAddress addr :=
      fun heq => h (addr, account) (List.mem_cons_self _ _) heq.symm
    have hrest : ∀ e ∈ rest, HexToAddress e.1 ≠ coinbase :=
      fun e he => h e (List.mem_cons_of_mem _ he)
    simp [checkAccountLoop, hne, ih hrest]

theorem checkAccountLoop_match (HexToAddress : String → Addr) (String2Big : String → Int)
    (coinbase : Addr) (visit : List (String × AllocAccount))
    (h : ∃ e ∈ visit, HexToAddress e.1 = coinbase) :
    ∃ e ∈ visit, HexToAddress e.1 = coinbase ∧
      checkAccountLoop HexToAddress String2Big coinbase visit
        = (String2Big e.2.Balance, true) := by
  induction visit with
  | nil =>
    obtain ⟨e, he, _⟩ := h
    simp at he
  | cons e rest ih =>
    obtain ⟨addr, account⟩ := e
    by_cases hc : coinbase = HexToAddress addr
    · exact ⟨(addr, account), List.mem_cons_self _ _, hc.symm, by simp [checkAccountLoop, hc]⟩
    · have hrest : ∃ e ∈ rest, HexToAddress e.1 = coinbase := by
        obtain ⟨e, he, hm⟩ := h
        rcases List.mem_cons.1 he with he | he
        · subst he
          exact absurd hm.symm hc
        · exact ⟨e, he, hm⟩
      obtain ⟨e, he, hm, hl⟩ := ih hrest
      exact ⟨e, List.mem_cons_of_mem _ he, hm, by simp [checkAccountLoop, hc, hl]⟩

/-- C13. For a genesis whose `Alloc` binds each key once and has at most one key that
denotes the coinbase address, in whatever order `range` visits `Alloc`: `checkAccount`
returns the coinbase, 10 and no error exactly when `Alloc` has the coinbase with a balance
of at least 10; the error "invalidate eth_account" exactly when no key denotes the
coinbase; the error "no enough balance" exactly when the coinbase entry has a balance
below 10; with either error the address and the amount returned are the zero values. -/
theorem checkAccount_contract (HexToAddress : String → Addr) (String2Big : String → Int)
    (zero : Addr) (g : Genesis) (visit : List (String × AllocAccount))
    (hvisit : rangeOrder g.Alloc visit)
    (hkeys : (g.Alloc.map Prod.fst).Nodup)
    (hone : ∀ e₁ ∈ g.Alloc, ∀ e₂ ∈ g.Alloc,
      HexToAddress e₁.1 = HexToAddress g.Coinbase →
      HexToAddress e₂.1 = HexToAddress g.Coinbase → e₁.1 = e₂.1) :
    (checkAccount HexToAddress String2Big zero g visit
        = (HexToAddress g.Coinbase, 10, none) ↔
      ∃ e ∈ g.Alloc, HexToAddress e.1 = HexToAddress g.Coinbase ∧
        10 ≤ String2Big e.2.Balance) ∧
    ((checkAccount HexToAddress String2Big zero g visit).2.2
        = some "invalidate eth_account" ↔
      ∀ e ∈ g.Alloc, HexToAddress e.1 ≠ HexToAddress g.Coinbase) ∧
    ((checkAccount HexToAddress String2Big zero g visit).2.2 = some "no enough balance" ↔
      ∃ e ∈ g.Alloc, HexToAddress e.1 = HexToAddress g.Coinbase ∧
        String2Big e.2.Balance < 10) ∧
    ((checkAccount HexToAddress String2Big zero g visit).2.2 ≠ none →
      (checkAccount HexToAddress String2Big zero g visit).1 = zero ∧
      (checkAccount HexToAddress String2Big zero g visit).2.1 = 0) := by
  have hmem : ∀ e, e ∈ visit ↔ e ∈ g.Alloc := fun e => List.Perm.mem_iff hvisit
  have hne : ("invalidate eth_account" : String) ≠ "no enough balance" := by decide
  by_cases hex : ∃ e ∈ visit, HexToAddress e.1 = HexToAddress g.Coinbase
  · obtain ⟨e₀, he₀, hm₀, hl⟩ :=
      checkAccountLoop_match HexToAddress String2Big (HexToAddress g.Coinbase) visit hex
    have he₀' : e₀ ∈ g.Alloc := (hmem e₀).1 he₀
    have huniq : ∀ e ∈ g.Alloc, HexToAddress e.1 = HexToAddress g.Coinbase → e = e₀ :=
      fun e he hm =>
        List.inj_on_of_nodup_map hkeys he he₀' (hone e he e₀ he₀' hm hm₀)
    by_cases hb : String2Big e₀.2.Balance < 10
    · have hres : checkAccount HexToAddress String2Big zero g visit
          = (zero, 0, some "no enough balance") := by
        simp [checkAccount, hl, hb]
      rw [hres]
      refine ⟨?_, ?_, ?_, fun _ => ⟨rfl, rfl⟩⟩
      · constructor
        · intro h
          simp at h
        · rintro ⟨e, he, hm, hge⟩
          rw [huniq e he hm] at hge
          omega
      · constructor
        · intro h
          exact absurd (Option.some.inj h).symm hne
        · intro h
          exact absurd hm₀ (h e₀ he₀')
      · exact ⟨fun _ => ⟨e₀, he₀', hm₀, hb⟩, fun _ => rfl⟩
    · have hres : checkAccount HexToAddress String2Big zero g visit
          = (HexToAddress g.Coinbase, 10, none) := by
        simp [checkAccount, hl, hb]
      rw [hres]
      refine ⟨?_, ?_, ?_, fun h => absurd rfl h⟩
      · exact ⟨fun _ => ⟨e₀, he₀', hm₀, by omega⟩, fun _ => rfl⟩
      · constructor
        · intro h
          simp at h
        · intro h
          exact absurd hm₀ (h e₀ he₀')
      · constructor
        · intro h
          simp at h
        · rintro ⟨e, he, hm, hlt⟩
          rw [huniq e he hm] at hlt
          exact absurd hlt hb
  · have hnone : ∀ e ∈ visit, HexToAddress e.1 ≠ HexToAddress g.Coinbase :=
      fun e he hm => hex ⟨e, he, hm⟩
    have hl := checkAccountLoop_no_match HexToAddress String2Big
      (HexToAddress g.Coinbase) visit hnone
    have hres : checkAccount HexToAddress String2Big zero g visit
        = (zero, 0, some "invalidate eth_account") := by
      simp [checkAccount, hl]
    rw [hres]
    refine ⟨?_, ?_, ?_, fun _ => ⟨rfl, rfl⟩⟩
    · constructor
      · intro h
        simp at h
      · rintro ⟨e, he, hm, _⟩
        exact absurd hm (hnone e ((hmem e).2 he))
    · exact ⟨fun _ e he => hnone e ((hmem e).2 he), fun _ => rfl⟩
    · constructor
      · intro h
        exact absurd (Option.some.inj h) hne
      · rintro ⟨e, he, hm, _⟩
        exact absurd hm (hnone e ((hmem e).2 he))

end CheckAccountProps

/-- C13, at a genesis with the coinbase "0xab" holding 25 and a second account: visited in
either order, `checkAccount` returns the coinbase, 10 and no error. -/
theorem checkAccount_contract_witness :
    checkAccount (fun s => s) (fun s => if s = "25" then 25 else 0) ""
      { Coinbase := "0xab", Alloc := [("0xab", ⟨"", "25", ""⟩), ("0xcd", ⟨"", "3", ""⟩)] }
      [("0xcd", ⟨"", "3", ""⟩), ("0xab", ⟨"", "25", ""⟩)]
      = ("0xab", 10, none) :=
  (checkAccount_contract (fun s => s) (fun s => if s = "25" then 25 else 0) ""
    { Coinbase := "0xab", Alloc := [("0xab", ⟨"", "25", ""⟩), ("0xcd", ⟨"", "3", ""⟩)] }
    [("0xcd", ⟨"", "3", ""⟩), ("0xab", ⟨"", "25", ""⟩)]
    (List.Perm.swap _ _ _) (by decide) (by decide)).1.2
    ⟨("0xab", ⟨"", "25", ""⟩), by decide, rfl, by decide⟩
